import Mathlib

/-!
Verification development for the Solana token / Raydium-pool info CLI.

The TypeScript sources are shallowly embedded: byte buffers are `List Nat`
(each element one byte), JavaScript strings are Lean `String`, time values
are `Int` milliseconds, fallible operations return `Option` / `Except`, and
stateful services are written in explicit state-passing style.
-/

namespace SolanaInfo

/-! ## Byte-level primitives -/

/-- Little-endian interpretation of a byte list as a natural number. -/
def leBytesToNat : List Nat → Nat
  | [] => 0
  | b :: bs => b + 256 * leBytesToNat bs

/-- The bytes `data[off .. off+len)` (pure slice, no bounds check). -/
def sliceBytes (data : List Nat) (off len : Nat) : List Nat :=
  (data.drop off).take len

/-- The byte at index `i` (0 when out of range). -/
def byteAt (data : List Nat) (i : Nat) : Nat := data.getD i 0

/-- The little-endian u64 starting at byte offset `off`. -/
def u64At (data : List Nat) (off : Nat) : Nat := leBytesToNat (sliceBytes data off 8)

/-! ## Borsh struct layouts (`@project-serum/borsh`)

A `struct([...])` layout is a list of named fields; `decode` walks the
field list in order, reading each field at the running byte offset and
throwing when a read would pass the end of the buffer.  Field kinds used
by the pool layout: `u8` (1 byte), `u64` (8 bytes little-endian),
`publicKey` (32 raw bytes). -/

inductive BField where
  | u8F : BField
  | u64F : BField
  | pkF : BField
  deriving Repr, DecidableEq

/-- Encoded width in bytes of one field kind. -/
def BField.size : BField → Nat
  | .u8F => 1
  | .u64F => 8
  | .pkF => 32

/-- A decoded field value: a number (u8/u64) or raw bytes (publicKey). -/
inductive BVal where
  | n : Nat → BVal
  | bytes : List Nat → BVal
  deriving Repr, DecidableEq

/-- Read one field of kind `f` at offset `off` (bounds already checked). -/
def readField (data : List Nat) (off : Nat) : BField → BVal
  | .u8F => .n (byteAt data off)
  | .u64F => .n (u64At data off)
  | .pkF => .bytes (sliceBytes data off 32)

/-- Sequential decode of a named-field layout starting at `off`:
each field is read at the running offset, which then advances by the
field's width; `none` models the library throwing on a short buffer. -/
def decodeFields (data : List Nat) (off : Nat) :
    List (String × BField) → Option (List (String × BVal))
  | [] => some []
  | (nm, f) :: rest =>
    if off + f.size ≤ data.length then
      (decodeFields data (off + f.size) rest).map
        (fun vs => (nm, readField data off f) :: vs)
    else none

/-- Numeric field `nm` of a decoded field list (0 if absent). -/
def getNum (fs : List (String × BVal)) (nm : String) : Nat :=
  match fs.lookup nm with
  | some (.n v) => v
  | _ => 0

/-- Byte-valued field `nm` of a decoded field list ([] if absent). -/
def getBytes (fs : List (String × BVal)) (nm : String) : List Nat :=
  match fs.lookup nm with
  | some (.bytes v) => v
  | _ => []

/-! ## PoolLayout.POOL_STATE_LAYOUT (src/services/poolService.ts) -/

/-- The Raydium pool-state layout, fields in source declaration order. -/
def POOL_STATE_LAYOUT : List (String × BField) :=
  [("version", .u8F), ("isInitialized", .u8F), ("nonce", .u8F),
   ("ammId", .pkF), ("baseTokenMint", .pkF), ("quoteTokenMint", .pkF),
   ("lpTokenMint", .pkF), ("baseVault", .pkF), ("quoteVault", .pkF),
   ("authority", .pkF),
   ("openTime", .u64F), ("lpSupply", .u64F),
   ("baseReserve", .u64F), ("quoteReserve", .u64F),
   ("targetBaseReserve", .u64F), ("targetQuoteReserve", .u64F),
   ("baseDepositLimit", .u64F), ("quoteDepositLimit", .u64F),
   ("state", .u8F), ("resetFlag", .u8F),
   ("minBaseAPY", .u64F), ("maxBaseAPY", .u64F),
   ("minQuoteAPY", .u64F), ("maxQuoteAPY", .u64F),
   ("totalDepositsPending", .u64F), ("totalWithdrawsPending", .u64F),
   ("poolOpenTime", .u64F)]

structure PoolState where
  version : Nat
  isInitialized : Nat
  nonce : Nat
  ammId : List Nat
  baseTokenMint : List Nat
  quoteTokenMint : List Nat
  lpTokenMint : List Nat
  baseVault : List Nat
  quoteVault : List Nat
  authority : List Nat
  openTime : Nat
  lpSupply : Nat
  baseReserve : Nat
  quoteReserve : Nat
  targetBaseReserve : Nat
  targetQuoteReserve : Nat
  baseDepositLimit : Nat
  quoteDepositLimit : Nat
  state : Nat
  resetFlag : Nat
  minBaseAPY : Nat
  maxBaseAPY : Nat
  minQuoteAPY : Nat
  maxQuoteAPY : Nat
  totalDepositsPending : Nat
  totalWithdrawsPending : Nat
  poolOpenTime : Nat
  deriving Repr, DecidableEq

/-- Assemble the decoded object from its named fields. -/
def toPoolState (fs : List (String × BVal)) : PoolState :=
  { version := getNum fs "version",
    isInitialized := getNum fs "isInitialized",
    nonce := getNum fs "nonce",
    ammId := getBytes fs "ammId",
    baseTokenMint := getBytes fs "baseTokenMint",
    quoteTokenMint := getBytes fs "quoteTokenMint",
    lpTokenMint := getBytes fs "lpTokenMint",
    baseVault := getBytes fs "baseVault",
    quoteVault := getBytes fs "quoteVault",
    authority := getBytes fs "authority",
    openTime := getNum fs "openTime",
    lpSupply := getNum fs "lpSupply",
    baseReserve := getNum fs "baseReserve",
    quoteReserve := getNum fs "quoteReserve",
    targetBaseReserve := getNum fs "targetBaseReserve",
    targetQuoteReserve := getNum fs "targetQuoteReserve",
    baseDepositLimit := getNum fs "baseDepositLimit",
    quoteDepositLimit := getNum fs "quoteDepositLimit",
    state := getNum fs "state",
    resetFlag := getNum fs "resetFlag",
    minBaseAPY := getNum fs "minBaseAPY",
    maxBaseAPY := getNum fs "maxBaseAPY",
    minQuoteAPY := getNum fs "minQuoteAPY",
    maxQuoteAPY := getNum fs "maxQuoteAPY",
    totalDepositsPending := getNum fs "totalDepositsPending",
    totalWithdrawsPending := getNum fs "totalWithdrawsPending",
    poolOpenTime := getNum fs "poolOpenTime" }

/-- `PoolLayout.POOL_STATE_LAYOUT.decode(data)`. -/
def decodePoolState (data : List Nat) : Option PoolState :=
  (decodeFields data 0 POOL_STATE_LAYOUT).map toPoolState

/-- Total width in bytes of a layout. -/
def layoutSize : List (String × BField) → Nat
  | [] => 0
  | (_, f) :: rest => f.size + layoutSize rest

/-- The field values a successful sequential decode produces. -/
def readLayout (data : List Nat) (off : Nat) :
    List (String × BField) → List (String × BVal)
  | [] => []
  | (nm, f) :: rest => (nm, readField data off f) :: readLayout data (off + f.size) rest

lemma decodeFields_ok (data : List Nat) :
    ∀ (L : List (String × BField)) (off : Nat), off + layoutSize L ≤ data.length →
      decodeFields data off L = some (readLayout data off L) := by
  intro L
  induction L with
  | nil => intro off h; simp [decodeFields, readLayout]
  | cons hd tl ih =>
    intro off h
    obtain ⟨nm, f⟩ := hd
    have h1 : off + f.size ≤ data.length := by
      simp [layoutSize] at h; omega
    have h2 : off + f.size + layoutSize tl ≤ data.length := by
      simp [layoutSize] at h; omega
    simp [decodeFields, readLayout, h1, ih _ h2]

/-! ## Cache (src/utils/cache.ts)

A `Map` from string keys to `{data, timestamp}` entries with a fixed TTL in
milliseconds.  `get` lazily evicts an expired entry and returns "absent";
it is embedded in state-passing style, returning the possibly-updated map. -/

structure TimedCache (α : Type) where
  entries : List (String × α × Int)
  ttl : Int

/-- The stored `(value, timestamp)` entry for `k`, if any (`Map.get`). -/
def TimedCache.lookup {α : Type} (c : TimedCache α) (k : String) : Option (α × Int) :=
  (c.entries.find? (fun e => e.1 == k)).map (fun e => e.2)

/-- Remove the entry for `k` (`Map.delete`). -/
def TimedCache.erase {α : Type} (c : TimedCache α) (k : String) : TimedCache α :=
  ⟨c.entries.filter (fun e => e.1 != k), c.ttl⟩

/-- `set(key, value)`: store `value` with the current timestamp,
overwriting any prior entry for that key. -/
def TimedCache.set {α : Type} (c : TimedCache α) (k : String) (v : α) (now : Int) :
    TimedCache α :=
  ⟨(k, v, now) :: c.entries.filter (fun e => e.1 != k), c.ttl⟩

/-- `get(key)`: return the stored value unless absent or expired
(`now - timestamp > ttl`); an expired entry is deleted and `null` returned. -/
def TimedCache.get {α : Type} (c : TimedCache α) (k : String) (now : Int) :
    Option α × TimedCache α :=
  match c.lookup k with
  | none => (none, c)
  | some (v, ts) => if now - ts > c.ttl then (none, c.erase k) else (some v, c)

/-! ## Token metadata decoding (src/services/tokenService.ts, decodeMetadata)

JavaScript strings are modelled one byte per character (`TextDecoder` output
for the ASCII range, which covers every constant the claims mention);
`replace(/\0/g, '')` is a byte filter and `trim()` drops ASCII whitespace
at both ends. -/

structure TokenMetadata where
  name : String
  symbol : String
  uri : String
  description : String
  deriving Repr, DecidableEq

/-- `TextDecoder().decode`, modelled byte-per-character. -/
def bytesToStr (bs : List Nat) : String := String.mk (bs.map Char.ofNat)

/-- `replace(/\0/g, '')`. -/
def stripNul (bs : List Nat) : List Nat := bs.filter (fun b => b != 0)

/-- JS whitespace test, restricted to the ASCII range of the model. -/
def isJsSpaceByte (b : Nat) : Bool := b == 32 || (9 ≤ b && b ≤ 13)

/-- `trim()`: drop whitespace from both ends. -/
def trimBytes (bs : List Nat) : List Nat :=
  ((bs.dropWhile isJsSpaceByte).reverse.dropWhile isJsSpaceByte).reverse

/-- `Buffer.readUInt32LE`, which throws (`none`) when fewer than 4 bytes
remain. -/
def readUInt32LE (data : List Nat) (off : Nat) : Option Nat :=
  if off + 4 ≤ data.length then some (leBytesToNat (sliceBytes data off 4)) else none

/-- The body of `decodeMetadata` up to its `catch`: skip key(1) +
update-authority(32) + mint(32), check `offset + 12 ≤ length`, then read the
three length-prefixed fields, failing (`none`) exactly where the source
throws — including an out-of-range `readUInt32LE`. -/
def tryDecodeMetadata (data : List Nat) : Option TokenMetadata :=
  if 65 + 12 > data.length then none
  else
    (readUInt32LE data 65).bind fun nameLength =>
    if 69 + nameLength > data.length then none
    else
      let name := stripNul (sliceBytes data 69 nameLength)
      (readUInt32LE data (69 + nameLength)).bind fun symbolLength =>
      if 69 + nameLength + 4 + symbolLength > data.length then none
      else
        let symbol := stripNul (sliceBytes data (69 + nameLength + 4) symbolLength)
        (readUInt32LE data (69 + nameLength + 4 + symbolLength)).bind fun uriLength =>
        if 69 + nameLength + 4 + symbolLength + 4 + uriLength > data.length then none
        else
          let uri := stripNul (sliceBytes data (69 + nameLength + 4 + symbolLength + 4) uriLength)
          some { name := bytesToStr (trimBytes name),
                 symbol := bytesToStr (trimBytes symbol),
                 uri := bytesToStr (trimBytes uri),
                 description := bytesToStr (trimBytes uri) }

/-- The placeholder returned by the `catch` branch of `decodeMetadata`. -/
def metadataPlaceholder : TokenMetadata :=
  { name := "Unknown Token", symbol := "UNKNOWN", uri := "",
    description := "Metadata decoding failed" }

/-- `decodeMetadata`: the whole body is wrapped in try/catch, so any
structural failure yields the placeholder. -/
def decodeMetadata (data : List Nat) : TokenMetadata :=
  (tryDecodeMetadata data).getD metadataPlaceholder

/-! ## TokenService (src/services/tokenService.ts)

The RPC/transport collaborators (`fetch` of the token list, `getMint`,
`PublicKey` parsing, PDA derivation, `getAccountInfo`) are injected as an
environment; each models the result of one call. -/

structure TokenInfo where
  address : String
  symbol : String
  decimals : Nat
  metadata : Option TokenMetadata
  supply : Option String
  mintAuthority : Option String
  freezeAuthority : Option String
  deriving Repr, DecidableEq

structure TokenListEntry where
  address : String
  symbol : String
  name : String
  decimals : Nat
  logoURI : Option String
  tags : Option (List String)
  deriving Repr, DecidableEq

structure MintInfo where
  decimals : Nat
  supply : Nat
  mintAuthority : Option String
  freezeAuthority : Option String
  deriving Repr, DecidableEq

inductive TokenErr where
  | invalidAddress : TokenErr
  | chainError : String → TokenErr
  deriving Repr, DecidableEq

structure TokenEnv where
  /-- Does `new PublicKey(address)` succeed (well-formed base-58, 32 bytes)? -/
  validPubkey : String → Bool
  /-- Parsed token-list registry response; `none` models a failed fetch. -/
  tokenListResponse : Option (List TokenListEntry)
  /-- `getMint` on-chain fetch. -/
  mint : String → Except String MintInfo
  /-- Result of `getTokenMetadata` for a mint (total: that method catches
  all of its own errors and returns `null` on failure, cf. `fetchTokenMetadata`). -/
  chainMetadata : String → Option TokenMetadata

/-- `getDefaultTokenInfo(address)`: the placeholder returned when token
resolution fails. -/
def getDefaultTokenInfo (address : String) : TokenInfo :=
  { address, symbol := "UNKNOWN", decimals := 9,
    metadata := some { name := "Unknown Token (" ++ address.take 8 ++ "...)",
                       symbol := "UNKNOWN", uri := "",
                       description := "Token information unavailable" },
    supply := none, mintAuthority := none, freezeAuthority := none }

/-- `getTokenFromTokenList`: look the address up in the external registry;
its own try/catch turns a failed fetch into `null`. -/
def getTokenFromTokenList (env : TokenEnv) (address : String) : Option TokenInfo :=
  match env.tokenListResponse with
  | none => none
  | some tokens =>
    match tokens.find? (fun t => t.address == address) with
    | none => none
    | some t =>
      some { address := t.address, symbol := t.symbol, decimals := t.decimals,
             metadata := some { name := t.name, symbol := t.symbol,
                                uri := t.logoURI.getD "",
                                description := (t.tags.map (String.intercalate ", ")).getD "" },
             supply := none, mintAuthority := none, freezeAuthority := none }

/-- `getTokenInfoFromChain`: `new PublicKey(address)` (throws on a
malformed address), `getMint`, `getTokenMetadata`; any throw is wrapped
into a chain error.  `metadata?.symbol || 'Unknown'` treats the empty
string as falsy. -/
def getTokenInfoFromChain (env : TokenEnv) (address : String) :
    Except TokenErr TokenInfo :=
  if env.validPubkey address then
    match env.mint address with
    | .error e => .error (.chainError e)
    | .ok m =>
      let md := env.chainMetadata address
      .ok { address,
            symbol := match md with
                      | some mm => if mm.symbol = "" then "Unknown" else mm.symbol
                      | none => "Unknown",
            decimals := m.decimals, metadata := md,
            supply := some (toString m.supply),
            mintAuthority := m.mintAuthority, freezeAuthority := m.freezeAuthority }
  else .error (.chainError "invalid public key input")

/-- The try-block of `getTokenInfo`: token-list lookup first, then
on-chain resolution. -/
def getTokenInfoAttempt (env : TokenEnv) (address : String) :
    Except TokenErr TokenInfo :=
  match getTokenFromTokenList env address with
  | some t => .ok t
  | none => getTokenInfoFromChain env address

/-- `getTokenInfo(address)`: the catch branch converts any resolution
failure into the default placeholder. -/
def getTokenInfo (env : TokenEnv) (address : String) : Except TokenErr TokenInfo :=
  match getTokenInfoAttempt env address with
  | .ok t => .ok t
  | .error _ => .ok (getDefaultTokenInfo address)

/-! ### Metadata sub-operation with its cache (`getTokenMetadata`) -/

structure MetaEnv where
  /-- Does `new PublicKey(address)` succeed? -/
  validPubkey : String → Bool
  /-- `findMetadataPDA`: deterministic program-derived address. -/
  pda : String → String
  /-- `getAccountInfo(pda)`: the account's raw data, absent if no account. -/
  account : String → Option (List Nat)

/-- `fetchTokenMetadata`: PDA derivation, account fetch, decode; its own
try/catch returns `null` on any throw, and a missing account is `null`. -/
def fetchTokenMetadata (env : MetaEnv) (address : String) : Option TokenMetadata :=
  if env.validPubkey address then
    match env.account (env.pda address) with
    | none => none
    | some data => some (decodeMetadata data)
  else none

/-- `getTokenMetadata` with its 600s cache of `TokenMetadata | null`
values.  The TypeScript `cached` collapses a stored `null` and a cache
miss into the same `null` (`Option.join`); the hit test is
`cached !== null`.  Returns (result, new cache state, whether
`fetchTokenMetadata` ran). -/
def getTokenMetadata (env : MetaEnv) (cache : TimedCache (Option TokenMetadata))
    (now : Int) (address : String) :
    Option TokenMetadata × TimedCache (Option TokenMetadata) × Bool :=
  let r := cache.get address now
  match r.1.join with
  | some m => (some m, r.2, false)
  | none =>
    let md := fetchTokenMetadata env address
    (md, r.2.set address md now, true)

/-! ### TokenService variant with a token-info cache (getTokenInfo of the
duplicated tokenService.ts, the one the spec's resolution order
describes): cache lookup, then `fetchTokenInfo` on a miss. -/

/-- The duplicated service's `TokenInfo` record has only these fields. -/
structure TokenInfoC where
  symbol : String
  decimals : Nat
  metadata : Option TokenMetadata
  deriving Repr, DecidableEq

structure TokenEnvC where
  validPubkey : String → Bool
  mint : String → Except String MintInfo
  chainMetadata : String → Option TokenMetadata

/-- That variant's `fetchTokenInfo`: address validation, then
`getMint` + `getTokenMetadata` (all network work happens here). -/
def fetchTokenInfoC (env : TokenEnvC) (address : String) :
    Except TokenErr TokenInfoC :=
  if env.validPubkey address then
    match env.mint address with
    | .error e => .error (.chainError e)
    | .ok m =>
      let md := env.chainMetadata address
      .ok { symbol := match md with
                      | some mm => if mm.symbol = "" then "Unknown" else mm.symbol
                      | none => "Unknown",
            decimals := m.decimals, metadata := md }
  else .error .invalidAddress

/-- That variant's `getTokenInfo`: check the cache first and return the
cached record on a hit; otherwise fetch, store, return.  Returns
(result, new cache state, whether `fetchTokenInfoC` ran). -/
def getTokenInfoC (env : TokenEnvC) (cache : TimedCache TokenInfoC)
    (now : Int) (address : String) :
    Except TokenErr TokenInfoC × TimedCache TokenInfoC × Bool :=
  match cache.get address now with
  | (some cached, c2) => (.ok cached, c2, false)
  | (none, c2) =>
    match fetchTokenInfoC env address with
    | .error e => (.error e, c2, true)
    | .ok ti => (.ok ti, c2.set address ti now, true)

/-! ## PoolService (src/services/poolService.ts)

Public keys that cross the RPC boundary are base-58 strings; the borsh
decode yields 32-byte lists, re-encoded by the injected `encodeAddr`
(`PublicKey.toString`). -/

structure AccountInfo where
  owner : String
  data : List Nat
  deriving Repr, DecidableEq

def RAYDIUM_V4_PROGRAM_ID : String :=
  "675kPX9MHTjS2zt1qfr1NYHuzeLXfQM9H24wFSUt1Mp8"

/-- `isRaydiumV4Pool`: the fetched account's owner must equal the fixed
AMM program id. -/
def isRaydiumV4Pool (poolAccount : AccountInfo) : Bool :=
  poolAccount.owner == RAYDIUM_V4_PROGRAM_ID

inductive PoolErr where
  | invalidAddress : PoolErr
  | poolNotFound : PoolErr
  | notAValidPool : PoolErr
  | decodeError : PoolErr
  deriving Repr, DecidableEq

structure PoolInfoOut where
  baseToken : TokenInfo
  quoteToken : TokenInfo
  baseTokenMint : List Nat
  quoteTokenMint : List Nat
  lpTokenMint : List Nat
  baseVault : List Nat
  quoteVault : List Nat
  authority : List Nat
  nonce : Nat
  openTime : Nat
  lpSupply : Nat
  deriving Repr, DecidableEq

structure PoolEnv where
  /-- `validatePoolAddress` (via `new PublicKey`). -/
  validAddr : String → Bool
  /-- `getAccountInfo` for the pool address. -/
  account : String → Option AccountInfo
  /-- `PublicKey.toString` base-58 encoding (library collaborator). -/
  encodeAddr : List Nat → String
  /-- `TokenService.getTokenInfo`, which is total (cf. `getTokenInfo`). -/
  tokenInfo : String → TokenInfo

/-- `fetchPoolInfo`: validate address, fetch account, check ownership,
decode pool state, resolve the two token legs, assemble.  The second
component records whether the pool-state decoder was invoked on the
account's data. -/
def fetchPoolInfo (env : PoolEnv) (address : String) :
    Except PoolErr PoolInfoOut × Bool :=
  if ¬ env.validAddr address then (.error .invalidAddress, false)
  else
    match env.account address with
    | none => (.error .poolNotFound, false)
    | some poolAccount =>
      if ¬ isRaydiumV4Pool poolAccount then (.error .notAValidPool, false)
      else
        match decodePoolState poolAccount.data with
        | none => (.error .decodeError, true)
        | some ps =>
          (.ok { baseToken := env.tokenInfo (env.encodeAddr ps.baseTokenMint),
                 quoteToken := env.tokenInfo (env.encodeAddr ps.quoteTokenMint),
                 baseTokenMint := ps.baseTokenMint,
                 quoteTokenMint := ps.quoteTokenMint,
                 lpTokenMint := ps.lpTokenMint,
                 baseVault := ps.baseVault, quoteVault := ps.quoteVault,
                 authority := ps.authority, nonce := ps.nonce,
                 openTime := ps.openTime, lpSupply := ps.lpSupply }, true)

/-- `getPoolInfo`: pool-info cache in front of `fetchPoolInfo`. -/
def getPoolInfo (env : PoolEnv) (cache : TimedCache PoolInfoOut)
    (now : Int) (address : String) :
    Except PoolErr PoolInfoOut × TimedCache PoolInfoOut × Bool :=
  match cache.get address now with
  | (some cached, c2) => (.ok cached, c2, false)
  | (none, c2) =>
    match fetchPoolInfo env address with
    | (.error e, d) => (.error e, c2, d)
    | (.ok info, d) => (.ok info, c2.set address info now, d)

/-! ### Derived price ratio (`getPriceRatio`)

`Number(amount) / Math.pow(10, decimals)` followed by the two divisions,
over exact rational arithmetic. -/

structure PoolLiquidity where
  baseTokenAmount : Nat
  quoteTokenAmount : Nat
  baseTokenDecimals : Nat
  quoteTokenDecimals : Nat
  deriving Repr, DecidableEq

/-- `getPriceRatio` applied to fetched vault balances. -/
def getPriceRatio (liq : PoolLiquidity) : ℚ × ℚ :=
  let baseAmount : ℚ := (liq.baseTokenAmount : ℚ) / (10 : ℚ) ^ liq.baseTokenDecimals
  let quoteAmount : ℚ := (liq.quoteTokenAmount : ℚ) / (10 : ℚ) ^ liq.quoteTokenDecimals
  (quoteAmount / baseAmount, baseAmount / quoteAmount)

/-! ## RateLimiter (sliding-window variant, utils/rateLimiter.ts)

`acquire()` filters the timestamp list down to the trailing window, and if
it is full sleeps until the oldest stamp leaves the window before pushing
`Date.now()`.  Times are integer milliseconds.

Two embeddings: `slideStep`/`seqRun` is the sequential semantics (each
`acquire` runs to completion before the next call), and `limStep`/`limRun`
is the event-loop semantics in which an `acquire` that sleeps is split
into its two atomic halves, so other callers can interleave. -/

/-- One complete sequential `acquire()` on timestamp list `ts` called at
time `now`: returns the timestamp list after the push and the grant time
(the time at which `acquire` returns). -/
def slideStep (n : Nat) (w : Int) (ts : List Int) (now : Int) : List Int × Int :=
  let ts2 := ts.filter (fun t => now - t < w)
  if n ≤ ts2.length then
    match ts2 with
    | [] => (ts2 ++ [now], now)
    | oldest :: _ =>
      let wait := w - (now - oldest)
      if 0 < wait then (ts2 ++ [now + wait], now + wait) else (ts2 ++ [now], now)
  else (ts2 ++ [now], now)

/-- Run a sequence of sequential `acquire()` calls at the given call
times; returns the final timestamp list and the grant times in order. -/
def seqRun (n : Nat) (w : Int) (ts : List Int) : List Int → List Int × List Int
  | [] => (ts, [])
  | c :: cs =>
    let p := slideStep n w ts c
    let r := seqRun n w p.1 cs
    (r.1, p.2 :: r.2)

/-- Sequential call times are admissible when each call happens no earlier
than the previous `acquire` returned (`lo` is the completion time of the
previous call). -/
def seqAdmissible (n : Nat) (w : Int) (ts : List Int) (lo : Int) : List Int → Prop
  | [] => True
  | c :: cs =>
    lo ≤ c ∧ seqAdmissible n w (slideStep n w ts c).1 (slideStep n w ts c).2 cs

/-- Number of grants falling in the half-open window `(start, start + w]`. -/
def windowCount (grants : List Int) (start w : Int) : Nat :=
  (grants.filter (fun g => decide (start < g) && decide (g ≤ start + w))).length

/-- Grant lists in which any `n` consecutive grants span at least `w`. -/
def Spaced (n : Nat) (w : Int) (l : List Int) : Prop :=
  ∀ i, i + n < l.length → l.getD i 0 + w ≤ l.getD (i + n) 0

/-! ### Event-loop (concurrent) semantics -/

/-- Limiter state: the shared timestamp list plus the multiset of wake-up
times of callers currently sleeping inside `acquire`. -/
structure LimState where
  ts : List Int
  pending : List Int
  deriving Repr, DecidableEq

/-- An atomic event: a new `acquire()` call entering at a given time, or a
sleeping caller waking up (the earliest pending wake-up fires). -/
inductive LimAct where
  | call : Int → LimAct
  | resume : LimAct
  deriving Repr, DecidableEq

/-- One atomic step.  A `call` runs the synchronous prefix of `acquire`
(filter, occupancy check, either an immediate push+grant or scheduling a
wake-up); a `resume` runs the post-sleep suffix (push+grant).  `none`
marks an inadmissible event (time running backwards, a call leapfrogging
a timer already due, or a resume with nothing pending). -/
def limStep (n : Nat) (w : Int) (st : LimState) (last : Int) :
    LimAct → Option (LimState × Int × Option Int)
  | .call now =>
    if last ≤ now ∧ ∀ p ∈ st.pending, now ≤ p then
      let ts2 := st.ts.filter (fun t => now - t < w)
      if n ≤ ts2.length then
        match ts2 with
        | [] => some (⟨ts2 ++ [now], st.pending⟩, now, some now)
        | oldest :: _ =>
          let wait := w - (now - oldest)
          if 0 < wait then some (⟨ts2, st.pending ++ [now + wait]⟩, now, none)
          else some (⟨ts2 ++ [now], st.pending⟩, now, some now)
      else some (⟨ts2 ++ [now], st.pending⟩, now, some now)
    else none
  | .resume =>
    match st.pending with
    | [] => none
    | p :: rest =>
      if last ≤ p ∧ ∀ q ∈ rest, p ≤ q then
        some (⟨st.ts ++ [p], rest⟩, p, some p)
      else none

/-- Run an event list from a state; `some grants` when every event is
admissible. -/
def limRun (n : Nat) (w : Int) (st : LimState) (last : Int) :
    List LimAct → Option (List Int)
  | [] => some []
  | a :: as =>
    match limStep n w st last a with
    | none => none
    | some (st2, last2, g) =>
      match limRun n w st2 last2 as with
      | none => none
      | some gs => some (g.toList ++ gs)

/-- Invariant tying the limiter's stored timestamp list `ts` to the full
grant history `gs`: grants are sorted, `n`-spaced by at least `w`, all no
later than `tcur` (the completion time of the last call), and `ts` is the
suffix of `gs` that survived the filters so far, every dropped grant being
at least `w` old at `tcur`. -/
def SeqInv (n : Nat) (w : Int) (gs ts : List Int) (tcur : Int) : Prop :=
  List.Sorted (· ≤ ·) gs ∧ Spaced n w gs ∧ (∀ t ∈ gs, t ≤ tcur) ∧
  ∃ d, d ≤ gs.length ∧ ts = gs.drop d ∧ ∀ m < d, gs.getD m 0 + w ≤ tcur

/-- The interleaving that exceeds the window bound for a (2, 10ms) limiter:
grants at 0 and 5 fill the window; two callers enter at 6, both see the
full window, both sleep 4ms, and both push at 10 — grants 5, 10, 10 all
fall in the window (4, 14]. -/
def c9acts : List LimAct :=
  [.call 0, .call 5, .call 6, .call 6, .resume, .resume]

/-! ## Concrete witness environments -/

/-- A pool environment whose fetched account is owned by the system
program, not the AMM program. -/
def poolEnvW : PoolEnv :=
  { validAddr := fun _ => true,
    account := fun _ => some { owner := "11111111111111111111111111111111", data := [] },
    encodeAddr := fun _ => "",
    tokenInfo := getDefaultTokenInfo }

/-- A token environment in which every resolution path fails. -/
def tokenEnvW : TokenEnv :=
  { validPubkey := fun _ => false,
    tokenListResponse := none,
    mint := fun _ => .error "fetch failed",
    chainMetadata := fun _ => none }

/-- A cached-variant token environment whose network is unreachable. -/
def tokenEnvCW : TokenEnvC :=
  { validPubkey := fun _ => true,
    mint := fun _ => .error "offline",
    chainMetadata := fun _ => none }

/-- A metadata environment in which no metadata account exists. -/
def metaEnvW : MetaEnv :=
  { validPubkey := fun _ => true,
    pda := fun a => a,
    account := fun _ => none }

/-! ## Cache lemmas -/

lemma TimedCache.set_lookup_self {α : Type} (c : TimedCache α) (k : String) (v : α)
    (now : Int) : (c.set k v now).lookup k = some (v, now) := by
  simp [TimedCache.set, TimedCache.lookup, List.find?]

lemma TimedCache.erase_lookup_self {α : Type} (c : TimedCache α) (k : String) :
    (c.erase k).lookup k = none := by
  simp only [TimedCache.erase, TimedCache.lookup, Option.map_eq_none']
  rw [List.find?_eq_none]
  intro x hx
  have hmem := (List.mem_filter.mp hx).2
  simp only [bne_iff_ne, ne_eq, decide_eq_true_eq] at hmem ⊢
  simpa using hmem

lemma TimedCache.set_ttl {α : Type} (c : TimedCache α) (k : String) (v : α)
    (now : Int) : (c.set k v now).ttl = c.ttl := rfl

lemma TimedCache.get_ttl {α : Type} (c : TimedCache α) (k : String) (now : Int) :
    ((c.get k now).2).ttl = c.ttl := by
  unfold TimedCache.get
  rcases h : c.lookup k with _ | ⟨v, ts⟩
  · rfl
  · by_cases hexp : now - ts > c.ttl <;> simp [hexp, TimedCache.erase]

lemma TimedCache.set_get_now {α : Type} (c : TimedCache α) (k : String) (v : α)
    (now : Int) (h : 0 ≤ c.ttl) : ((c.set k v now).get k now).1 = some v := by
  unfold TimedCache.get
  rw [TimedCache.set_lookup_self]
  have h2 : ¬ (now - now > (c.set k v now).ttl) := by rw [TimedCache.set_ttl]; omega
  dsimp only
  rw [if_neg h2]

/-! ## List index lemmas -/

lemma getD_drop_eq (l : List Int) (i j : Nat) :
    (l.drop i).getD j 0 = l.getD (i + j) 0 := by
  simp [List.getD_eq_getElem?_getD, List.getElem?_drop]

lemma getD_mem_of_lt (l : List Int) (n : Nat) (h : n < l.length) :
    l.getD n 0 ∈ l := by
  rw [List.getD_eq_getElem l 0 h]
  exact List.getElem_mem h

lemma sorted_getD_mono (l : List Int) (hs : List.Sorted (· ≤ ·) l)
    (i j : Nat) (hij : i ≤ j) (hj : j < l.length) :
    l.getD i 0 ≤ l.getD j 0 := by
  rcases Nat.eq_or_lt_of_le hij with rfl | hlt
  · exact le_refl _
  · have hi : i < l.length := by omega
    rw [List.getD_eq_getElem l 0 hi, List.getD_eq_getElem l 0 hj]
    exact List.pairwise_iff_get.mp hs ⟨i, hi⟩ ⟨j, hj⟩ (by simpa [Fin.lt_def] using hlt)

lemma orderEmbedding_val_add {a b : ℕ} (f : Fin a ↪o Fin b) (k : ℕ) :
    ∀ (i j : Fin a), i.val + k = j.val → (f i).val + k ≤ (f j).val := by
  induction k with
  | zero =>
    intro i j hij
    have : i = j := Fin.ext (by omega)
    subst this
    omega
  | succ k ih =>
    intro i j hij
    have hj2 : j.val - 1 < a := by omega
    have h1 := ih i ⟨j.val - 1, hj2⟩ (by simp; omega)
    have h2 : f ⟨j.val - 1, hj2⟩ < f j := f.strictMono (by simp [Fin.lt_def]; omega)
    have h3 := Fin.lt_def.mp h2
    omega

/-- The spacing property passes to sublists of a sorted list. -/
lemma spaced_sublist (n : Nat) (w : Int) (l l2 : List Int)
    (hsub : List.Sublist l2 l) (hs : List.Sorted (· ≤ ·) l)
    (hsp : Spaced n w l) : Spaced n w l2 := by
  obtain ⟨f, hf⟩ := List.sublist_iff_exists_fin_orderEmbedding_get_eq.mp hsub
  intro i hi
  have hi1 : i < l2.length := by omega
  have hval := orderEmbedding_val_add f n ⟨i, hi1⟩ ⟨i + n, hi⟩ rfl
  have hb2 := (f ⟨i + n, hi⟩).isLt
  have hb1 := (f ⟨i, hi1⟩).isLt
  have hsp1 := hsp (f ⟨i, hi1⟩).val (by omega)
  have hmono := sorted_getD_mono l hs ((f ⟨i, hi1⟩).val + n) (f ⟨i + n, hi⟩).val
    (by omega) (by omega)
  have he1 : l2.getD i 0 = l.getD (f ⟨i, hi1⟩).val 0 := by
    rw [List.getD_eq_getElem l2 0 hi1, List.getD_eq_getElem l 0 (by omega)]
    simpa [List.get] using hf ⟨i, hi1⟩
  have he2 : l2.getD (i + n) 0 = l.getD (f ⟨i + n, hi⟩).val 0 := by
    rw [List.getD_eq_getElem l2 0 hi, List.getD_eq_getElem l 0 (by omega)]
    simpa [List.get] using hf ⟨i + n, hi⟩
  rw [he1, he2]
  omega

/-- A sorted, `n`-spaced grant list puts at most `n` grants in any
half-open window of length `w`. -/
lemma windowCount_le_of_sorted_spaced (n : Nat) (w : Int) (l : List Int)
    (hs : List.Sorted (· ≤ ·) l) (hsp : Spaced n w l) (start : Int) :
    windowCount l start w ≤ n := by
  by_contra hcon
  push_neg at hcon
  set f2 := l.filter (fun g => decide (start < g) && decide (g ≤ start + w)) with hf2
  have hlen : n < f2.length := hcon
  have hsub : List.Sublist f2 l := List.filter_sublist l
  have hs2 : List.Sorted (· ≤ ·) f2 := hs.sublist hsub
  have hsp2 : Spaced n w f2 := spaced_sublist n w l f2 hsub hs hsp
  have hbound := hsp2 0 (by omega)
  have hm0 : f2.getD 0 0 ∈ f2 := getD_mem_of_lt f2 0 (by omega)
  have hmn : f2.getD (0 + n) 0 ∈ f2 := getD_mem_of_lt f2 (0 + n) (by omega)
  rw [hf2] at hm0 hmn
  have hp0 := List.of_mem_filter hm0
  have hpn := List.of_mem_filter hmn
  simp only [Bool.and_eq_true, decide_eq_true_eq] at hp0 hpn
  rw [← hf2] at hp0 hpn
  omega

/-- Filtering a sorted list down to the trailing window keeps a suffix;
every dropped element is at least `w` old. -/
lemma filter_window_suffix (w now : Int) (l : List Int)
    (hs : List.Sorted (· ≤ ·) l) :
    ∃ k, k ≤ l.length ∧ l.filter (fun t => now - t < w) = l.drop k ∧
      ∀ m < k, l.getD m 0 + w ≤ now := by
  induction l with
  | nil => exact ⟨0, by simp, by simp, by omega⟩
  | cons a tl ih =>
    by_cases ha : now - a < w
    · refine ⟨0, by simp, ?_, by omega⟩
      rw [List.drop_zero]
      apply List.filter_eq_self.mpr
      intro t ht
      rcases List.mem_cons.mp ht with rfl | htl
      · simpa using ha
      · have hat : a ≤ t := (List.sorted_cons.mp hs).1 t htl
        simp only [decide_eq_true_eq]
        omega
    · obtain ⟨k, hk, hfil, hdrop⟩ := ih (List.sorted_cons.mp hs).2
      refine ⟨k + 1, by simpa using hk, ?_, ?_⟩
      · have hpa : (fun t => decide (now - t < w)) a = false := by
          simpa using ha
        simpa [List.filter_cons, hpa] using hfil
      · intro m hm
        cases m with
        | zero => simpa using (by omega : a + w ≤ now)
        | succ m2 =>
          have := hdrop m2 (by omega)
          simpa using this

/-! ## Rate-limiter step lemmas -/

/-- One sequential `acquire` always appends one grant to the filtered
window; the grant is no earlier than the call, and either the window was
full and the grant is at least `w` after the window's oldest stamp, or the
window was not full and the grant is the call time itself. -/
lemma slideStep_eq_cases (n : Nat) (w : Int) (ts : List Int) (c : Int) (hn : 1 ≤ n) :
    ∃ g, slideStep n w ts c = (ts.filter (fun t => c - t < w) ++ [g], g) ∧ c ≤ g ∧
      ((n ≤ (ts.filter (fun t => c - t < w)).length ∧
        (ts.filter (fun t => c - t < w)).getD 0 0 + w ≤ g) ∨
       ((ts.filter (fun t => c - t < w)).length < n ∧ g = c)) := by
  unfold slideStep
  by_cases hfull : n ≤ (ts.filter (fun t => decide (c - t < w))).length
  · rw [if_pos hfull]
    rcases hts2 : ts.filter (fun t => decide (c - t < w)) with _ | ⟨oldest, rest⟩
    · rw [hts2] at hfull
      simp at hfull
      omega
    · dsimp only
      rw [hts2] at hfull
      by_cases hwait : 0 < w - (c - oldest)
      · rw [if_pos hwait]
        refine ⟨c + (w - (c - oldest)), rfl, by omega, Or.inl ⟨hfull, ?_⟩⟩
        simp only [List.getD_cons_zero]
        omega
      · rw [if_neg hwait]
        refine ⟨c, rfl, le_refl c, Or.inl ⟨hfull, ?_⟩⟩
        simp only [List.getD_cons_zero]
        omega
  · rw [if_neg hfull]
    exact ⟨c, rfl, le_refl c, Or.inr ⟨by omega, rfl⟩⟩

/-- One sequential `acquire` preserves the invariant. -/
lemma slideStep_preserve (n : Nat) (w : Int) (hn : 1 ≤ n)
    (gs ts : List Int) (tcur c : Int)
    (hinv : SeqInv n w gs ts tcur) (hc : tcur ≤ c) :
    SeqInv n w (gs ++ [(slideStep n w ts c).2]) (slideStep n w ts c).1
      (slideStep n w ts c).2 ∧ c ≤ (slideStep n w ts c).2 := by
  obtain ⟨hs, hsp, hub, d, hd, hts, hdropped⟩ := hinv
  have hts_sorted : List.Sorted (· ≤ ·) ts := by
    rw [hts]; exact hs.sublist (List.drop_sublist d gs)
  obtain ⟨k, hk, hfil, hkdrop⟩ := filter_window_suffix w c ts hts_sorted
  have hts_len : ts.length = gs.length - d := by rw [hts, List.length_drop]
  have hts2 : ts.filter (fun t => c - t < w) = gs.drop (d + k) := by
    rw [hfil, hts, List.drop_drop]
  have hd2 : d + k ≤ gs.length := by omega
  have hlen2 : (ts.filter (fun t => c - t < w)).length = gs.length - (d + k) := by
    rw [hts2, List.length_drop]
  have hdropped2 : ∀ m < d + k, gs.getD m 0 + w ≤ c := by
    intro m hm
    by_cases hmd : m < d
    · have := hdropped m hmd; omega
    · have h1 := hkdrop (m - d) (by omega)
      have h2 : ts.getD (m - d) 0 = gs.getD m 0 := by
        rw [hts, getD_drop_eq]
        congr 1
        omega
      omega
  have hL : (ts.filter (fun t => c - t < w)).length ≤ n := by
    by_contra hcon
    push_neg at hcon
    have hlt : d + k + n < gs.length := by omega
    have hhead_mem : (gs.drop (d + k)).getD 0 0 ∈ ts.filter (fun t => c - t < w) := by
      rw [hts2]
      exact getD_mem_of_lt _ 0 (by rw [List.length_drop]; omega)
    have hhead_in := List.of_mem_filter hhead_mem
    simp only [decide_eq_true_eq] at hhead_in
    have hhead_eq : (gs.drop (d + k)).getD 0 0 = gs.getD (d + k) 0 := by
      rw [getD_drop_eq]
      norm_num
    rw [hhead_eq] at hhead_in
    have hsp1 := hsp (d + k) (by omega)
    have hmem : gs.getD (d + k + n) 0 ∈ gs := getD_mem_of_lt gs _ (by omega)
    have hub1 := hub _ hmem
    omega
  obtain ⟨g, hstep, hcg, hcases⟩ := slideStep_eq_cases n w ts c hn
  rw [hstep]
  dsimp only
  have hnew : ∀ i, i + n = gs.length → gs.getD i 0 + w ≤ g := by
    intro i hi
    rcases hcases with ⟨hfull, hsp_g⟩ | ⟨hlt, hg⟩
    · have hexact : gs.length - (d + k) = n := by omega
      have hd2i : d + k = i := by omega
      have hh : (ts.filter (fun t => c - t < w)).getD 0 0 = gs.getD (d + k) 0 := by
        rw [hts2, getD_drop_eq]
        norm_num
      rw [hh, hd2i] at hsp_g
      omega
    · have hilt : i < d + k := by omega
      have := hdropped2 i hilt
      omega
  refine ⟨⟨?_, ?_, ?_, ?_⟩, hcg⟩
  · refine List.pairwise_append.mpr ⟨hs, List.pairwise_singleton _ _, ?_⟩
    intro a ha b hb
    rw [List.mem_singleton] at hb
    subst hb
    have := hub a ha
    omega
  · intro i hi
    rw [List.length_append, List.length_singleton] at hi
    by_cases hin : i + n < gs.length
    · rw [List.getD_append _ _ _ _ (by omega), List.getD_append _ _ _ _ hin]
      exact hsp i hin
    · have hin2 : i + n = gs.length := by omega
      rw [List.getD_append _ _ _ _ (by omega),
        List.getD_append_right _ _ _ _ (by omega)]
      have hz : i + n - gs.length = 0 := by omega
      rw [hz]
      simp only [List.getD_cons_zero]
      exact hnew i hin2
  · intro t ht
    rw [List.mem_append] at ht
    rcases ht with h1 | h1
    · have := hub t h1; omega
    · rw [List.mem_singleton] at h1; omega
  · refine ⟨d + k, ?_, ?_, ?_⟩
    · rw [List.length_append, List.length_singleton]; omega
    · rw [List.drop_append_eq_append_drop, hts2]
      congr 1
      have hz : d + k - gs.length = 0 := by omega
      rw [hz, List.drop_zero]
    · intro m hm
      rw [List.getD_append _ _ _ _ (by omega)]
      have := hdropped2 m hm
      omega

/-- A whole admissible sequential run yields a sorted, `n`-spaced grant
history. -/
lemma seqRun_inv (n : Nat) (w : Int) (hn : 1 ≤ n) :
    ∀ (cs : List Int) (gs ts : List Int) (tcur : Int),
      SeqInv n w gs ts tcur → seqAdmissible n w ts tcur cs →
      List.Sorted (· ≤ ·) (gs ++ (seqRun n w ts cs).2) ∧
        Spaced n w (gs ++ (seqRun n w ts cs).2) := by
  intro cs
  induction cs with
  | nil =>
    intro gs ts tcur hinv hadm
    simpa [seqRun] using ⟨hinv.1, hinv.2.1⟩
  | cons c cs ih =>
    intro gs ts tcur hinv hadm
    obtain ⟨hlo, hadm2⟩ := hadm
    obtain ⟨hinv2, hcg⟩ := slideStep_preserve n w hn gs ts tcur c hinv hlo
    have hrec := ih (gs ++ [(slideStep n w ts c).2]) (slideStep n w ts c).1
      (slideStep n w ts c).2 hinv2 hadm2
    simpa [seqRun, List.append_assoc] using hrec

/-! ## Claim theorems -/

/-- Claim C1: the pool-state decoder parses the buffer little-endian with
the fields in exactly the declared order — for every buffer long enough
for the layout (349 bytes), the decode succeeds and the decoded record's
fields through `lpSupply` equal the bytes at the fixed offsets:
version at 0, isInitialized at 1, nonce at 2, the seven 32-byte public
keys at 3, 35, 67, 99, 131, 163, 195, and the little-endian u64 openTime
and lpSupply at 227 and 235. -/
theorem c1_pool_layout_fixed_offsets (data : List Nat) (h : 349 ≤ data.length) :
    ∃ ps, decodePoolState data = some ps ∧ ps.version = byteAt data 0 ∧
      ps.isInitialized = byteAt data 1 ∧ ps.nonce = byteAt data 2 ∧
      ps.ammId = sliceBytes data 3 32 ∧ ps.baseTokenMint = sliceBytes data 35 32 ∧
      ps.quoteTokenMint = sliceBytes data 67 32 ∧ ps.lpTokenMint = sliceBytes data 99 32 ∧
      ps.baseVault = sliceBytes data 131 32 ∧ ps.quoteVault = sliceBytes data 163 32 ∧
      ps.authority = sliceBytes data 195 32 ∧ ps.openTime = u64At data 227 ∧
      ps.lpSupply = u64At data 235 := by
  have hsz : layoutSize POOL_STATE_LAYOUT = 349 := by rfl
  have h1 : decodeFields data 0 POOL_STATE_LAYOUT =
      some (readLayout data 0 POOL_STATE_LAYOUT) :=
    decodeFields_ok data _ 0 (by omega)
  refine ⟨toPoolState (readLayout data 0 POOL_STATE_LAYOUT), ?_, ?_, ?_, ?_, ?_, ?_,
    ?_, ?_, ?_, ?_, ?_, ?_, ?_⟩
  · rw [decodePoolState, h1]; rfl
  all_goals rfl

/-- Claim C1, witness: the theorem applied to the 349-byte zero buffer. -/
theorem c1_witness :
    ∃ ps, decodePoolState (List.replicate 349 0) = some ps ∧
      ps.version = byteAt (List.replicate 349 0) 0 ∧
      ps.isInitialized = byteAt (List.replicate 349 0) 1 ∧
      ps.nonce = byteAt (List.replicate 349 0) 2 ∧
      ps.ammId = sliceBytes (List.replicate 349 0) 3 32 ∧
      ps.baseTokenMint = sliceBytes (List.replicate 349 0) 35 32 ∧
      ps.quoteTokenMint = sliceBytes (List.replicate 349 0) 67 32 ∧
      ps.lpTokenMint = sliceBytes (List.replicate 349 0) 99 32 ∧
      ps.baseVault = sliceBytes (List.replicate 349 0) 131 32 ∧
      ps.quoteVault = sliceBytes (List.replicate 349 0) 163 32 ∧
      ps.authority = sliceBytes (List.replicate 349 0) 195 32 ∧
      ps.openTime = u64At (List.replicate 349 0) 227 ∧
      ps.lpSupply = u64At (List.replicate 349 0) 235 :=
  c1_pool_layout_fixed_offsets (List.replicate 349 0)
    (by rw [List.length_replicate])

/-- Claim C2: when the pool-info cache misses and the fetched account's
owner differs from the fixed AMM program id, `getPoolInfo` fails with
`NotAValidPool` and the pool-state decoder is never invoked on that
account's data (the trace flag stays `false`: the ownership check
strictly precedes any decode attempt in `fetchPoolInfo`). -/
theorem c2_owner_check_precedes_decode (env : PoolEnv) (cache : TimedCache PoolInfoOut)
    (now : Int) (address : String) (acct : AccountInfo) (c2 : TimedCache PoolInfoOut)
    (hmiss : cache.get address now = (none, c2))
    (hvalid : env.validAddr address = true)
    (hacct : env.account address = some acct)
    (howner : acct.owner ≠ RAYDIUM_V4_PROGRAM_ID) :
    getPoolInfo env cache now address = (.error .notAValidPool, c2, false) := by
  have hbeq : isRaydiumV4Pool acct = false := by
    simp [isRaydiumV4Pool]
    exact howner
  simp [getPoolInfo, hmiss, fetchPoolInfo, hvalid, hacct, hbeq]

/-- Claim C2, witness: a pool account owned by the system program. -/
theorem c2_witness :
    getPoolInfo poolEnvW (⟨[], 300000⟩ : TimedCache PoolInfoOut) 0 "pool" =
      (.error .notAValidPool, (⟨[], 300000⟩ : TimedCache PoolInfoOut), false) :=
  c2_owner_check_precedes_decode poolEnvW ⟨[], 300000⟩ 0 "pool"
    { owner := "11111111111111111111111111111111", data := [] }
    ⟨[], 300000⟩ rfl rfl rfl (by decide)

/-- Claim C3: the metadata decoder is total — for every byte buffer it
returns either a correctly parsed record (the successful branch of the
body) or exactly the placeholder
(name "Unknown Token", symbol "UNKNOWN", uri "",
description "Metadata decoding failed"); in particular the empty buffer
and a buffer whose declared name length exceeds the remaining bytes both
produce the placeholder. -/
theorem c3_metadata_decode_total :
    (∀ data : List Nat,
      (∃ m, tryDecodeMetadata data = some m ∧ decodeMetadata data = m) ∨
      decodeMetadata data = metadataPlaceholder) ∧
    decodeMetadata [] = metadataPlaceholder ∧
    decodeMetadata (List.replicate 65 0 ++ [255, 255, 255, 255] ++ List.replicate 8 0) =
      metadataPlaceholder := by
  refine ⟨?_, ?_, ?_⟩
  · intro data
    rcases h : tryDecodeMetadata data with _ | m
    · right; simp [decodeMetadata, h]
    · left; exact ⟨m, rfl, by simp [decodeMetadata, h]⟩
  · rfl
  · rfl

/-- Claim C4, counterexample: it is not the case that `getTokenInfo`
fails with `InvalidAddress` on a syntactically invalid address — in the
environment `tokenEnvW`, where address validation rejects everything,
`getTokenInfo` still returns a value (the default placeholder) instead
of failing. -/
theorem c4_counterexample :
    ¬ (∀ (env : TokenEnv) (address : String),
      env.validPubkey address = false →
      getTokenInfo env address = .error .invalidAddress) := by
  intro h
  have h2 := h tokenEnvW "this-is-not-base58!!" rfl
  have h3 : getTokenInfo tokenEnvW "this-is-not-base58!!" =
      .ok (getDefaultTokenInfo "this-is-not-base58!!") := rfl
  rw [h3] at h2
  exact Except.noConfusion h2

/-- Claim C4, amended: `getTokenInfo` never fails for any address, valid
or not; whenever both resolution paths fail (token list misses or
errors, and the on-chain path throws — which includes every
syntactically invalid address), it returns the default placeholder
TokenInfo with symbol "UNKNOWN", decimals 9 and synthetic name
"Unknown Token (first-8-chars...)". -/
theorem c4_total_with_placeholder (env : TokenEnv) (address : String) :
    (∃ t, getTokenInfo env address = .ok t) ∧
    ((getTokenFromTokenList env address = none ∧
      ∃ e, getTokenInfoFromChain env address = .error e) →
      getTokenInfo env address = .ok (getDefaultTokenInfo address)) ∧
    (getDefaultTokenInfo address).symbol = "UNKNOWN" ∧
    (getDefaultTokenInfo address).decimals = 9 ∧
    (getDefaultTokenInfo address).metadata.map TokenMetadata.name =
      some ("Unknown Token (" ++ address.take 8 ++ "...)") := by
  refine ⟨?_, ?_, rfl, rfl, rfl⟩
  · unfold getTokenInfo getTokenInfoAttempt
    rcases getTokenFromTokenList env address with _ | t
    · rcases getTokenInfoFromChain env address with e | t
      · exact ⟨getDefaultTokenInfo address, rfl⟩
      · exact ⟨t, rfl⟩
    · exact ⟨t, rfl⟩
  · rintro ⟨hlist, e, hchain⟩
    unfold getTokenInfo getTokenInfoAttempt
    rw [hlist, hchain]

/-- Claim C4, witness: in `tokenEnvW` every path fails and the default
placeholder is returned. -/
theorem c4_witness :
    getTokenInfo tokenEnvW "abcdefghijkl" = .ok (getDefaultTokenInfo "abcdefghijkl") :=
  (c4_total_with_placeholder tokenEnvW "abcdefghijkl").2.1
    ⟨rfl, TokenErr.chainError "invalid public key input", rfl⟩

/-- Claim C5: in the cached token-service variant, the cache lookup comes
first, and on an unexpired hit `getTokenInfo` returns the cached record
immediately with no network call (`fetchTokenInfoC` never runs: trace
flag `false`). -/
theorem c5_cache_hit_no_network (env : TokenEnvC) (cache : TimedCache TokenInfoC)
    (now : Int) (address : String) (v : TokenInfoC) (c2 : TimedCache TokenInfoC)
    (hhit : cache.get address now = (some v, c2)) :
    getTokenInfoC env cache now address = (.ok v, c2, false) := by
  simp [getTokenInfoC, hhit]

/-- Claim C5, witness: a fresh cache entry is served with the network
unreachable. -/
theorem c5_witness :
    getTokenInfoC tokenEnvCW
      (⟨[("mint1", ⟨"SOL", 9, none⟩, 0)], 300000⟩ : TimedCache TokenInfoC) 5 "mint1" =
      (.ok ⟨"SOL", 9, none⟩,
        (⟨[("mint1", ⟨"SOL", 9, none⟩, 0)], 300000⟩ : TimedCache TokenInfoC), false) :=
  c5_cache_hit_no_network tokenEnvCW _ 5 "mint1" ⟨"SOL", 9, none⟩ _ rfl

/-- Claim C6: `getPriceRatio` converts each raw vault amount to a decimal
as amount / 10^decimals and returns
(quoteDecimal / baseDecimal, baseDecimal / quoteDecimal); for base
2,000,000,000 with 9 decimals and quote 4,000,000 with 6 decimals it
returns baseToQuote 2 and quoteToBase 1/2. -/
theorem c6_price_ratio_conversion :
    (∀ liq : PoolLiquidity,
      getPriceRatio liq =
        (((liq.quoteTokenAmount : ℚ) / (10 : ℚ) ^ liq.quoteTokenDecimals) /
           ((liq.baseTokenAmount : ℚ) / (10 : ℚ) ^ liq.baseTokenDecimals),
         ((liq.baseTokenAmount : ℚ) / (10 : ℚ) ^ liq.baseTokenDecimals) /
           ((liq.quoteTokenAmount : ℚ) / (10 : ℚ) ^ liq.quoteTokenDecimals))) ∧
    getPriceRatio ⟨2000000000, 4000000, 9, 6⟩ = (2, 1/2) := by
  constructor
  · intro liq; rfl
  · norm_num [getPriceRatio]

/-- Claim C7: for nonzero base and quote amounts the two returned ratios
are exact mutual inverses over rational arithmetic. -/
theorem c7_price_ratio_inverse (liq : PoolLiquidity)
    (hb : liq.baseTokenAmount ≠ 0) (hq : liq.quoteTokenAmount ≠ 0) :
    (getPriceRatio liq).1 * (getPriceRatio liq).2 = 1 := by
  unfold getPriceRatio
  have hb2 : ((liq.baseTokenAmount : ℚ)) ≠ 0 := Nat.cast_ne_zero.mpr hb
  have hq2 : ((liq.quoteTokenAmount : ℚ)) ≠ 0 := Nat.cast_ne_zero.mpr hq
  have h10b : ((10 : ℚ)) ^ liq.baseTokenDecimals ≠ 0 := pow_ne_zero _ (by norm_num)
  have h10q : ((10 : ℚ)) ^ liq.quoteTokenDecimals ≠ 0 := pow_ne_zero _ (by norm_num)
  field_simp
  ring

/-- Claim C7, witness: the inverse law at unit amounts. -/
theorem c7_witness :
    (getPriceRatio ⟨1, 1, 0, 0⟩).1 * (getPriceRatio ⟨1, 1, 0, 0⟩).2 = 1 :=
  c7_price_ratio_inverse ⟨1, 1, 0, 0⟩ (by decide) (by decide)

/-- Claim C8: `set` then `get` at the same instant returns the value
(set overwrites with the current timestamp); a `get` strictly past the
TTL evicts the entry (the state becomes the erased map, whose lookup is
absent) and returns absent rather than an error, and a subsequent `set`
reuses the slot. -/
theorem c8_cache_set_get_ttl {α : Type} (c : TimedCache α) (k : String) (v v2 : α)
    (now now2 : Int) (httl : 0 ≤ c.ttl) (hexp : now2 - now > c.ttl) :
    (((c.set k v now).get k now).1 = some v) ∧
    ((c.set k v now).get k now2).1 = none ∧
    ((c.set k v now).get k now2).2 = (c.set k v now).erase k ∧
    (((c.set k v now).get k now2).2).lookup k = none ∧
    ((((((c.set k v now).get k now2).2)).set k v2 now2).get k now2).1 = some v2 := by
  have hset := TimedCache.set_lookup_self c k v now
  have hget2 : (c.set k v now).get k now2 = (none, (c.set k v now).erase k) := by
    unfold TimedCache.get
    rw [hset]
    dsimp only
    rw [if_pos (by rw [TimedCache.set_ttl]; omega)]
  refine ⟨TimedCache.set_get_now c k v now httl, ?_, ?_, ?_, ?_⟩
  · rw [hget2]
  · rw [hget2]
  · rw [hget2]; exact TimedCache.erase_lookup_self _ k
  · rw [hget2]
    apply TimedCache.set_get_now
    simpa [TimedCache.erase] using httl

/-- Claim C8, witness: a 300s cache at concrete times 0 and 300001. -/
theorem c8_witness :
    ((((⟨[], 300000⟩ : TimedCache Nat).set "k" 7 0).get "k" 0).1 = some 7) ∧
    (((⟨[], 300000⟩ : TimedCache Nat).set "k" 7 0).get "k" 300001).1 = none ∧
    ((((⟨[], 300000⟩ : TimedCache Nat).set "k" 7 0).get "k" 300001).2 =
      (((⟨[], 300000⟩ : TimedCache Nat).set "k" 7 0)).erase "k") ∧
    ((((⟨[], 300000⟩ : TimedCache Nat).set "k" 7 0).get "k" 300001).2).lookup "k" = none ∧
    ((((((⟨[], 300000⟩ : TimedCache Nat).set "k" 7 0).get "k" 300001).2).set "k" 9 300001).get "k" 300001).1 = some 9 :=
  c8_cache_set_get_ttl (⟨[], 300000⟩ : TimedCache Nat) "k" 7 9 0 300001
    (by decide) (by decide)

/-- Claim C9, counterexample: under the event-loop semantics the sliding
window bound fails — with the (2, 10) limiter the admissible interleaving
`c9acts` (two callers enter at 6 while the window holds grants 0 and 5,
both sleep, both push at 10) produces grants 0, 5, 10, 10, and the window
(4, 14] holds three grants. -/
theorem c9_counterexample :
    ¬ (∀ (n : Nat) (w : Int), 1 ≤ n → 0 < w →
        ∀ (acts : List LimAct) (gs : List Int) (start : Int),
          limRun n w ⟨[], []⟩ 0 acts = some gs →
          windowCount gs start w ≤ n) := by
  intro h
  have h2 := h 2 10 (by decide) (by decide) c9acts [0, 5, 10, 10] 4 (by decide)
  exact absurd h2 (by decide)

/-- Claim C9, amended: for sequential callers — each `acquire` runs to
completion before the next call is made — every half-open window of
length `w` holds at most `n` grants. -/
theorem c9_sequential_window_bound (n : Nat) (w : Int) (lo : Int)
    (cs : List Int) (start : Int) (hn : 1 ≤ n)
    (hadm : seqAdmissible n w [] lo cs) :
    windowCount (seqRun n w [] cs).2 start w ≤ n := by
  have hinv0 : SeqInv n w [] [] lo := by
    refine ⟨List.sorted_nil, ?_, ?_, 0, ?_, ?_, ?_⟩
    · intro i hi; simp at hi
    · intro t ht; simp at ht
    · simp
    · simp
    · intro m hm; omega
  have hrun := seqRun_inv n w hn cs [] [] lo hinv0 hadm
  rw [List.nil_append] at hrun
  exact windowCount_le_of_sorted_spaced n w _ hrun.1 hrun.2 start

/-- Claim C9, witness: a single sequential call at time 0 under the
(1, 1) limiter. -/
theorem c9_witness : windowCount (seqRun 1 1 [] [0]).2 0 1 ≤ 1 :=
  c9_sequential_window_bound 1 1 0 [0] 0 (by decide) ⟨le_refl 0, trivial⟩

/-- Claim C10: when metadata resolution returns absent, `getTokenMetadata`
runs the fetch (flag `true`) and writes the absent result into the
metadata cache (the entry `(none, now)` is stored), but because the
cache-hit test collapses a stored absent value with a miss, a second call
within the TTL still re-runs the full fetch (flag `true` again) — the
absent result is never served from the cache. -/
theorem c10_absent_metadata_not_served_from_cache (env : MetaEnv)
    (cache : TimedCache (Option TokenMetadata)) (now now2 : Int) (address : String)
    (habsent : fetchTokenMetadata env address = none)
    (hmiss : ((cache.get address now).1).join = none)
    (hfresh : now2 - now ≤ cache.ttl) :
    (getTokenMetadata env cache now address).2.2 = true ∧
    ((getTokenMetadata env cache now address).2.1).lookup address = some (none, now) ∧
    (getTokenMetadata env ((getTokenMetadata env cache now address).2.1) now2 address).2.2
      = true := by
  have hstep : ∀ (c : TimedCache (Option TokenMetadata)) (t : Int),
      ((c.get address t).1).join = none →
      getTokenMetadata env c t address =
        (fetchTokenMetadata env address,
         ((c.get address t).2).set address (fetchTokenMetadata env address) t, true) := by
    intro c t h
    simp only [getTokenMetadata]
    rw [h]
  have hcall1 := hstep cache now hmiss
  rw [habsent] at hcall1
  set c2 := ((cache.get address now).2).set address none now with hc2
  have hlookup : c2.lookup address = some (none, now) := by
    rw [hc2]
    exact TimedCache.set_lookup_self ((cache.get address now).2) address none now
  have httl : c2.ttl = cache.ttl := by
    rw [hc2, TimedCache.set_ttl, TimedCache.get_ttl]
  have hget2 : c2.get address now2 = (some none, c2) := by
    unfold TimedCache.get
    rw [hlookup]
    dsimp only
    rw [if_neg (by rw [httl]; omega)]
  have hmiss2 : ((c2.get address now2).1).join = none := by
    rw [hget2]
    rfl
  have hcall2 := hstep c2 now2 hmiss2
  refine ⟨by rw [hcall1], ?_, ?_⟩
  · rw [hcall1]
    exact hlookup
  · rw [hcall1]
    dsimp only
    rw [hcall2]

/-- Claim C10, witness: a mint with no metadata account, queried twice
one millisecond apart against a 600s cache. -/
theorem c10_witness :
    (getTokenMetadata metaEnvW (⟨[], 600000⟩ : TimedCache (Option TokenMetadata)) 0 "m").2.2
      = true ∧
    ((getTokenMetadata metaEnvW (⟨[], 600000⟩ : TimedCache (Option TokenMetadata)) 0 "m").2.1).lookup "m"
      = some (none, 0) ∧
    (getTokenMetadata metaEnvW
      ((getTokenMetadata metaEnvW (⟨[], 600000⟩ : TimedCache (Option TokenMetadata)) 0 "m").2.1)
      1 "m").2.2 = true :=
  c10_absent_metadata_not_served_from_cache metaEnvW ⟨[], 600000⟩ 0 1 "m"
    rfl rfl (by decide)

end SolanaInfo
